import Mathlib

/-!
Verification development for the audio-pipeline repository
(`backend/app/audio_pipeline.py`, `backend/app/run_pipeline.py`,
`backend/app/main.py`).

Modelling conventions:
* Python strings are `List Char`; Python slicing `s[:i]`/`s[j:]` is
  `List.take i` / `List.drop j` (both clamp out-of-range indices, as
  Python slices do).
* Python floats are exact rationals `ℚ`.  The only non-finite float
  values the source can produce are the two `float('inf')` results in
  `_calculate_snr` and `_calculate_word_perplexity`; those two
  functions are therefore given return type `Option ℚ`, with `none`
  standing for `+infinity`.  The downstream normalisation expressions
  `min(max((snr - 10) / 20, 0), 1)` and `max(1 - (perplexity - 1), 0)`
  are evaluated on `none` the way IEEE arithmetic evaluates them on
  `+infinity`:  `(inf - 10)/20 = inf`, `max(inf, 0) = inf`,
  `min(inf, 1) = 1`, and `1 - (inf - 1) = -inf`, `max(-inf, 0) = 0`.
* `numpy.log10` is modelled as an oracle parameter `log10 : ℚ → ℚ`;
  every fact proved below is independent of its values.
* External model calls (Google speech response, spaCy `nlp`,
  text-to-speech) are parameters of the pipeline function.
* The result dictionary built by `process_audio_file` is an
  association list `List (List Char × List Char)` in assignment order
  (every stored value in the source is a string).
-/

/-- One word of the speech API response; the source only reads
`word.confidence`. -/
structure SpeechWord where
  confidence : ℚ
deriving DecidableEq

/-- One alternative of a speech recognition result
(`transcript`, `confidence`, `words`). -/
structure SpeechAlternative where
  transcript : List Char
  confidence : ℚ
  words : List SpeechWord
deriving DecidableEq

/-- One recognition result: its list of alternatives. -/
structure RecognizeResult where
  alternatives : List SpeechAlternative
deriving DecidableEq

/-- The speech API response: its list of results. -/
structure RecognizeResponse where
  results : List RecognizeResult
deriving DecidableEq

/-- `numpy.mean` on rationals (`sum / len`; the source never takes the
mean of an empty list on a path whose value matters: `numpy` would give
`NaN` there, and `NaN > 0` is false exactly as `0 > 0` is below). -/
def npMean (l : List ℚ) : ℚ := l.sum / l.length

/-- `numpy.var` (population variance). -/
def npVar (l : List ℚ) : ℚ := npMean (l.map (fun x => (x - npMean l) ^ 2))

/-- `_calculate_snr` of `audio_pipeline.py`:
`10 * log10(signal_power / noise_power) if noise_power > 0 else inf`,
with `signal_power = mean(y ** 2)` and `noise_power = var(y)`.
`none` models `float('inf')`. -/
def calculate_snr (log10 : ℚ → ℚ) (y : List ℚ) : Option ℚ :=
  let signal_power := npMean (y.map (fun x => x ^ 2))
  let noise_power := npVar y
  if noise_power > 0 then some (10 * log10 (signal_power / noise_power)) else none

/-- `_calculate_word_perplexity`: `1.0 / avg_confidence if
avg_confidence > 0 else inf`.  `none` models `float('inf')`. -/
def calculate_word_perplexity (words : List SpeechWord) : Option ℚ :=
  let avg_confidence := npMean (words.map (fun w => w.confidence))
  if avg_confidence > 0 then some (1 / avg_confidence) else none

/-- `snr_normalized = min(max((snr - 10) / 20, 0), 1)`.  On
`snr = +inf` (the `none` case) IEEE evaluation gives
`min(max(inf, 0), 1) = 1`. -/
def snrNormalized : Option ℚ → ℚ
  | some q => min (max ((q - 10) / 20) 0) 1
  | none => 1

/-- `perplexity_normalized = max(1 - (perplexity - 1), 0)`.  On
`perplexity = +inf` (the `none` case) IEEE evaluation gives
`max(-inf, 0) = 0`. -/
def perplexityNormalized : Option ℚ → ℚ
  | some p => max (1 - (p - 1)) 0
  | none => 0

/-- `combined_score = 0.5 * api_confidence + 0.3 * snr_normalized +
0.2 * perplexity_normalized` (lines 110-113 of `audio_pipeline.py`). -/
def combinedScore (api_confidence : ℚ) (snr perplexity : Option ℚ) : ℚ :=
  0.5 * api_confidence + 0.3 * snrNormalized snr + 0.2 * perplexityNormalized perplexity

/-- The level mapping of lines 115-117: `HIGH` above `0.85`, else
`MEDIUM` above `0.70`, else `LOW`. -/
def trustLevel (combined_score : ℚ) : String :=
  if combined_score > 0.85 then "HIGH"
  else if combined_score > 0.70 then "MEDIUM"
  else "LOW"

/-- Round to the nearest integer, ties to even, on exact rationals;
this is how `f"{x:.2f}"` rounds `x * 100` (Python formats binary
doubles with round-half-even; away from representation ties the exact
rational agrees). -/
def roundHalfEven (x : ℚ) : ℤ :=
  let f := ⌊x⌋
  let r := x - f
  if r < 1 / 2 then f
  else if 1 / 2 < r then f + 1
  else if f % 2 = 0 then f else f + 1

/-- Decimal rendering of `f"{q:.2f}"` as a character list. -/
def format2 (q : ℚ) : List Char :=
  let n := roundHalfEven (q * 100)
  let m := n.natAbs
  let sign : List Char := if n < 0 then [ '-'] else []
  sign ++ Nat.toDigits 10 (m / 100) ++ [ '.'] ++
    [Nat.digitChar (m % 100 / 10), Nat.digitChar (m % 10)]

/-- First separator occurrence: `findSep sep s = some (b, a)` when
`s = b ++ sep ++ a` with `b` shortest; `none` when `sep` does not
occur.  Helper for Python `str.split(sep)`. -/
def findSep (sep : List Char) : List Char → Option (List Char × List Char)
  | [] => none
  | c :: rest =>
    if sep.isPrefixOf (c :: rest) then some ([], (c :: rest).drop sep.length)
    else
      match findSep sep rest with
      | none => none
      | some (b, a) => some (c :: b, a)

/-- Fuelled worker for Python `str.split(sep)` (leftmost,
non-overlapping). -/
def splitOnSepGo (sep : List Char) : Nat → List Char → List (List Char)
  | 0, s => [s]
  | fuel + 1, s =>
    match findSep sep s with
    | none => [s]
    | some (b, a) => b :: splitOnSepGo sep fuel a

/-- Python `s.split(sep)` for a non-empty separator. -/
def splitOnSep (sep s : List Char) : List (List Char) :=
  splitOnSepGo sep (s.length + 1) s

/-- Python `sep.join(parts)`. -/
def joinSep (sep : List Char) : List (List Char) → List Char
  | [] => []
  | [x] => x
  | x :: y :: rest => x ++ sep ++ joinSep sep (y :: rest)

/-- `_summarize_text` of `audio_pipeline.py` (with the default
`max_sentences=3`, the only way it is called): split on `". "`, keep
the first three chunks, rejoin, and append a final `'.'` unless the
result already ends with one. -/
def summarize_text (text : List Char) : List Char :=
  let sentences := splitOnSep ( ". ".data) text
  let summary := joinSep ( ". ".data) (sentences.take 3)
  if List.isSuffixOf ( ".".data) summary then summary else summary ++ ( ".".data)

/-- A spaCy entity as `_redact_pii_ner` reads it:
`start_char`, `end_char`, `label_`. -/
structure Ent where
  start_char : Nat
  end_char : Nat
  label : List Char
deriving DecidableEq

/-- The replacement text `f'[REDACTED_{label}]'`. -/
def tagOf (label : List Char) : List Char :=
  ( "[REDACTED_".data) ++ label ++ ( "]".data)

/-- Descending stable insertion for
`sorted(ents, key=start_char, reverse=True)`. -/
def insertEntDesc (e : Ent) : List Ent → List Ent
  | [] => [e]
  | x :: xs =>
    if e.start_char < x.start_char then x :: insertEntDesc e xs else e :: x :: xs

/-- `sorted(doc.ents, key=lambda e: e.start_char, reverse=True)`. -/
def sortEntsDesc : List Ent → List Ent
  | [] => []
  | e :: rest => insertEntDesc e (sortEntsDesc rest)

/-- The labels `_redact_pii_ner` redacts. -/
def nerLabels : List (List Char) :=
  [( "PERSON".data), ( "DATE".data), ( "GPE".data), ( "ORG".data)]

/-- `_redact_pii_ner` of `audio_pipeline.py`, with the spaCy model
output supplied as the entity list `ents` (the source computes it as
`nlp(text).ents`):  sort entities by `start_char` descending, then for
each entity with an allowed label splice
`text[:start] + '[REDACTED_<label>]' + text[end:]`. -/
def redact_pii_ner (ents : List Ent) (text : List Char) : List Char :=
  (sortEntsDesc ents).foldl
    (fun acc e =>
      if nerLabels.contains e.label then
        acc.take e.start_char ++ tagOf e.label ++ acc.drop e.end_char
      else acc)
    text

/-- Python `\w` on the ASCII inputs at hand: letters, digits,
underscore. -/
def isWordChar (c : Char) : Bool := c.isAlphanum || c = '_'

/-- Python `\d` (ASCII digits). -/
def isDigitChar (c : Char) : Bool := c.isDigit

/-- Python `\s` (ASCII whitespace `[ \t\n\r\f\v]`). -/
def isSpaceChar (c : Char) : Bool :=
  c = ' ' || c = '\t' || c = '\n' || c = '\r' || c = '\x0c' || c = '\x0b'

/-- Abstract syntax of the exact regex fragment used by
`_redact_pii_regex`: character classes, greedy `?`, a lazy star over a
character class (`[ -]*?`), greedy counted repetition `{lo,hi}`,
sequencing, and the word-boundary assertion `\b`. -/
inductive RE where
  | cls (p : Char → Bool)
  | opt (r : RE)
  | lazyStar (p : Char → Bool)
  | rept (r : RE) (lo hi : Nat)
  | seq (a b : RE)
  | wb

/-- Word-boundary test between the previous character (`none` at the
string start) and the upcoming input. -/
def wordBoundary (prev : Option Char) (s : List Char) : Bool :=
  let left := match prev with
    | none => false
    | some c => isWordChar c
  let right := match s with
    | [] => false
    | c :: _ => isWordChar c
  left != right

/-- Lazy star over a character class: all ways to consume a prefix of
characters satisfying `p`, shortest first (the backtracking priority of
`*?`).  Each outcome is `(last consumed character, remaining input)`. -/
def lazyRun (p : Char → Bool) : Option Char → List Char → List (Option Char × List Char)
  | prev, [] => [(prev, [])]
  | prev, c :: rest =>
    (prev, c :: rest) :: (if p c then lazyRun p (some c) rest else [])

/-- Greedy counted repetition driver: `m` is the matcher of the body,
`lo`/`hi` the remaining minimum/maximum counts.  Another iteration is
preferred over stopping; stopping is allowed once `lo = 0`. -/
def reptRun (m : Option Char → List Char → List (Option Char × List Char)) :
    Nat → Nat → Option Char → List Char → List (Option Char × List Char)
  | _, 0, prev, s => [(prev, s)]
  | lo, hi + 1, prev, s =>
    ((m prev s).flatMap fun x => reptRun m (lo - 1) hi x.1 x.2) ++
      (if lo = 0 then [(prev, s)] else [])

/-- Backtracking matcher: all successful outcomes
`(last consumed character, remaining input)` in the priority order of
Python's engine; the head is the match Python commits to. -/
def reRun : RE → Option Char → List Char → List (Option Char × List Char)
  | RE.cls p, _, s =>
    match s with
    | [] => []
    | c :: rest => if p c then [(some c, rest)] else []
  | RE.opt r, prev, s => reRun r prev s ++ [(prev, s)]
  | RE.lazyStar p, prev, s => lazyRun p prev s
  | RE.rept r lo hi, prev, s => reptRun (reRun r) lo hi prev s
  | RE.seq a b, prev, s => (reRun a prev s).flatMap fun x => reRun b x.1 x.2
  | RE.wb, prev, s => if wordBoundary prev s then [(prev, s)] else []

/-- Fuelled scan of `re.sub(pattern, repl, s)`: at each position try a
match; on success emit `repl` and continue after the match, otherwise
copy one character.  (All three source patterns consume at least one
character on success; the guard keeps the definition total regardless.) -/
def reSubGo (re : RE) (repl : List Char) : Nat → Option Char → List Char → List Char
  | 0, _, s => s
  | _ + 1, _, [] => []
  | fuel + 1, prev, c :: rest =>
    match reRun re prev (c :: rest) with
    | [] => c :: reSubGo re repl fuel (some c) rest
    | (prevAfter, restAfter) :: _ =>
      if restAfter.length < (c :: rest).length then
        repl ++ reSubGo re repl fuel prevAfter restAfter
      else
        c :: reSubGo re repl fuel (some c) rest

/-- `re.sub(pattern, repl, s)` for the patterns at hand. -/
def reSub (re : RE) (repl s : List Char) : List Char :=
  reSubGo re repl (s.length + 1) none s

/-- `\d{n}` as counted repetition of the digit class. -/
def reDigits (n : Nat) : RE := RE.rept (RE.cls isDigitChar) n n

/-- The credit-card pattern of the source:
`\b(?:\d[ -]*?){13,16}\b`. -/
def reCreditCard : RE :=
  RE.seq RE.wb
    (RE.seq
      (RE.rept (RE.seq (RE.cls isDigitChar)
                       (RE.lazyStar (fun c => c = ' ' || c = '-'))) 13 16)
      RE.wb)

/-- The SSN pattern of the source: `\b\d{3}[-\s]?\d{2}[-\s]?\d{4}\b`. -/
def reSsn : RE :=
  RE.seq RE.wb
    (RE.seq (reDigits 3)
      (RE.seq (RE.opt (RE.cls (fun c => c = '-' || isSpaceChar c)))
        (RE.seq (reDigits 2)
          (RE.seq (RE.opt (RE.cls (fun c => c = '-' || isSpaceChar c)))
            (RE.seq (reDigits 4) RE.wb)))))

/-- The phone pattern of the source:
`\b\d{3}[-.\s]?\d{3}[-.\s]?\d{4}\b`. -/
def rePhone : RE :=
  RE.seq RE.wb
    (RE.seq (reDigits 3)
      (RE.seq (RE.opt (RE.cls (fun c => c = '-' || c = '.' || isSpaceChar c)))
        (RE.seq (reDigits 3)
          (RE.seq (RE.opt (RE.cls (fun c => c = '-' || c = '.' || isSpaceChar c)))
            (RE.seq (reDigits 4) RE.wb)))))

/-- `_redact_pii_regex` of `audio_pipeline.py`: the three
substitutions applied in the dictionary's insertion order
(`CREDIT_CARD`, then `SSN`, then `PHONE`), each over the output of the
previous one. -/
def redact_pii_regex (text : List Char) : List Char :=
  reSub rePhone (tagOf ( "PHONE".data))
    (reSub reSsn (tagOf ( "SSN".data))
      (reSub reCreditCard (tagOf ( "CREDIT_CARD".data)) text))

/-- The error message of line 99 of `audio_pipeline.py`. -/
def transcribeErrMsg : List Char :=
  ( "Could not transcribe audio. The file might be empty or corrupt.".data)

/-- Result-dictionary keys, in assignment order. -/
def keyTranscript : List Char := ( "transcript".data)

def keyScore : List Char := ( "confidence_score".data)

def keyLevel : List Char := ( "confidence_level".data)

def keyRedacted : List Char := ( "redacted_transcript".data)

def keySummary : List Char := ( "summary".data)

def keyAudio : List Char := ( "summary_audio_filename".data)

/-- `process_audio_file` of `audio_pipeline.py`, lines 77-135, with the
external services as parameters: `resp` is the Google speech response,
`samples` the audio samples `librosa.load` returns, `log10` the
`numpy.log10` oracle, `entsOf` the spaCy model (text to entity list),
and `tts` the text-to-speech call (text to generated file name).
`Except.error` models the `raise ValueError` of line 99; the guard
tests `response.results` and `response.results[0].alternatives` for
emptiness, exactly as `not response.results or not
response.results[0].alternatives` does.  The returned association list
is the `results` dictionary in assignment order. -/
def process_audio_file (resp : RecognizeResponse) (samples : List ℚ)
    (log10 : ℚ → ℚ) (entsOf : List Char → List Ent)
    (tts : List Char → List Char) :
    Except (List Char) (List (List Char × List Char)) :=
  match resp.results with
  | [] => Except.error transcribeErrMsg
  | res :: _ =>
    match res.alternatives with
    | [] => Except.error transcribeErrMsg
    | alt :: _ =>
      let transcript := alt.transcript
      let api_confidence := alt.confidence
      let snr := calculate_snr log10 samples
      let perplexity := calculate_word_perplexity alt.words
      let combined_score := combinedScore api_confidence snr perplexity
      let confidence_level := trustLevel combined_score
      let redacted_regex := redact_pii_regex transcript
      let redacted_final := redact_pii_ner (entsOf redacted_regex) redacted_regex
      let summary := summarize_text transcript
      let summary_audio_filename := tts summary
      Except.ok
        [(keyTranscript, transcript),
         (keyScore, format2 combined_score),
         (keyLevel, confidence_level.data),
         (keyRedacted, redacted_final),
         (keySummary, summary),
         (keyAudio, summary_audio_filename)]

/-- Whether an `Except` value is a success. -/
def isOkE {ε α : Type} : Except ε α → Bool
  | Except.ok _ => true
  | Except.error _ => false

/-- Which detector produced a span (spec section 3, `PiiSpan.source`). -/
inductive SpanSource where
  | PATTERN : SpanSource
  | ENTITY : SpanSource
deriving DecidableEq

/-- Modelled from the spec: the `PiiSpan` record of section 3
(`start`, `end`, `label`, `source`); the span-based redactor this type
feeds is the component `run_pipeline.main` consumes as
`results['pii_results']` but whose implementation is not under `src/`
(the in-source `_redact_pii_ner` returns only a string).  The `end`
field is named `stop` because `end` is a Lean keyword. -/
structure PiiSpan where
  start : Nat
  stop : Nat
  label : List Char
  source : SpanSource
deriving DecidableEq

/-- Modelled from the spec: the `RedactionRecord` of section 3
(`label`, `original_text`, `start`, `end`). -/
structure RedactionRecord where
  label : List Char
  original_text : List Char
  start : Nat
  stop : Nat
deriving DecidableEq

/-- Two spans do not overlap (half-open ranges). -/
def SpanDisj (a b : PiiSpan) : Prop := a.stop ≤ b.start ∨ b.stop ≤ a.start

instance : DecidableRel SpanDisj := fun a b => by
  unfold SpanDisj; infer_instance

/-- Insertion step for sorting spans by `start` descending. -/
def insertSpanDesc (sp : PiiSpan) : List PiiSpan → List PiiSpan
  | [] => [sp]
  | x :: xs =>
    if sp.start ≤ x.start then x :: insertSpanDesc sp xs else sp :: x :: xs

/-- Modelled from the spec, section 4.2 step 3: sort the resolved span
set by `start` descending. -/
def sortSpansDesc : List PiiSpan → List PiiSpan
  | [] => []
  | sp :: rest => insertSpanDesc sp (sortSpansDesc rest)

/-- One slice-and-splice step (spec section 4.2 step 4):
`text = text[:start] + "[REDACTED_<label>]" + text[end:]`. -/
def spliceTag (text : List Char) (sp : PiiSpan) : List Char :=
  text.take sp.start ++ tagOf sp.label ++ text.drop sp.stop

/-- Modelled from the spec, section 4.2 steps 4-5: apply the spans in
the given (descending) order, and for each applied span append a
`RedactionRecord` capturing the substring the splice replaces, read
from the current text before the splice touches that range. -/
def applyAll : List Char → List PiiSpan → List Char × List RedactionRecord
  | text, [] => (text, [])
  | text, sp :: rest =>
    let rec0 : RedactionRecord :=
      ⟨sp.label, (text.take sp.stop).drop sp.start, sp.start, sp.stop⟩
    let out := applyAll (spliceTag text sp) rest
    (out.1, rec0 :: out.2)

/-- Insertion step for sorting records by `start` ascending. -/
def insertRecAsc (r : RedactionRecord) : List RedactionRecord → List RedactionRecord
  | [] => [r]
  | x :: xs =>
    if r.start ≤ x.start then r :: x :: xs else x :: insertRecAsc r xs

/-- Modelled from the spec, section 4.2 step 6: re-sort the records
ascending by original `start` for presentation. -/
def sortRecordsAsc : List RedactionRecord → List RedactionRecord
  | [] => []
  | r :: rest => insertRecAsc r (sortRecordsAsc rest)

/-- Modelled from the spec: the SpanRedactor contract of section 4.2
on a non-overlapping span set (its overlap-resolution step 2 is the
identity there): sort spans descending, splice each, record each
original substring, then present the records ascending. -/
def redactSpans (text : List Char) (spans : List PiiSpan) :
    List Char × List RedactionRecord :=
  let out := applyAll text (sortSpansDesc spans)
  (out.1, sortRecordsAsc out.2)

/-- Length of the redaction tag for a label. -/
def tagLen (label : List Char) : Nat := (tagOf label).length

/-- Splicing the recorded original substrings back into the positions
of the corresponding redaction tags (the round-trip direction of the
spec's audit-trail property).  `prevEnd` is the original `end` offset
of the previously restored record (`0` initially); for records sorted
ascending, the redacted text between two consecutive tags is the
original gap text, of length `start - prevEnd`. -/
def spliceBack : List Char → Nat → List RedactionRecord → List Char
  | red, _, [] => red
  | red, prevEnd, r :: rs =>
    red.take (r.start - prevEnd) ++ r.original_text ++
      spliceBack (red.drop ((r.start - prevEnd) + tagLen r.label)) r.stop rs

/-- Well-formedness of a descending span list over a text of length
`bound`: each span is non-empty, ends within `bound`, and all later
spans lie strictly to the left of the current span's start. -/
def DescOk : Nat → List PiiSpan → Prop
  | _, [] => True
  | bound, sp :: rest => sp.start < sp.stop ∧ sp.stop ≤ bound ∧ DescOk sp.start rest

instance : ∀ (b : Nat) (l : List PiiSpan), Decidable (DescOk b l)
  | _, [] => by unfold DescOk; infer_instance
  | b, sp :: rest =>
    have : Decidable (DescOk sp.start rest) := instDecidableDescOk sp.start rest
    by unfold DescOk; infer_instance

/-- The record an applied span contributes, phrased against the
original text. -/
def recOf (t : List Char) (sp : PiiSpan) : RedactionRecord :=
  ⟨sp.label, (t.take sp.stop).drop sp.start, sp.start, sp.stop⟩

theorem descOk_mono (B B2 : Nat) (l : List PiiSpan) (hB : B ≤ B2)
    (h : DescOk B l) : DescOk B2 l := by
  cases l with
  | nil => trivial
  | cons sp rest =>
    obtain ⟨h1, h2, h3⟩ := h
    exact ⟨h1, le_trans h2 hB, h3⟩

theorem descOk_allStop (l : List PiiSpan) :
    ∀ B, DescOk B l → ∀ r ∈ l, r.stop ≤ B := by
  induction l with
  | nil => intro B _ r hr; cases hr
  | cons sp rest ih =>
    intro B h r hr
    obtain ⟨h1, h2, h3⟩ := h
    rcases List.mem_cons.mp hr with rfl | hr
    · exact h2
    · have := ih sp.start h3 r hr
      omega

theorem descOk_allValid (l : List PiiSpan) :
    ∀ B, DescOk B l → ∀ r ∈ l, r.start < r.stop := by
  induction l with
  | nil => intro B _ r hr; cases hr
  | cons sp rest ih =>
    intro B h r hr
    obtain ⟨h1, h2, h3⟩ := h
    rcases List.mem_cons.mp hr with rfl | hr
    · exact h1
    · exact ih sp.start h3 r hr

theorem descOk_strictDesc (l : List PiiSpan) :
    ∀ B, DescOk B l →
      List.Pairwise (fun a b : PiiSpan => b.start < a.start) l := by
  induction l with
  | nil => intro B _; exact List.Pairwise.nil
  | cons sp rest ih =>
    intro B h
    obtain ⟨h1, h2, h3⟩ := h
    refine List.Pairwise.cons ?_ (ih sp.start h3)
    intro r hr
    have h4 := descOk_allStop rest sp.start h3 r hr
    have h5 := descOk_allValid rest sp.start h3 r hr
    omega

theorem insertSpanDesc_perm (sp : PiiSpan) (l : List PiiSpan) :
    List.Perm (insertSpanDesc sp l) (sp :: l) := by
  induction l with
  | nil => simp [insertSpanDesc]
  | cons x xs ih =>
    simp only [insertSpanDesc]
    split
    · exact (ih.cons x).trans (List.Perm.swap sp x xs)
    · exact List.Perm.refl _

theorem sortSpansDesc_perm (l : List PiiSpan) :
    List.Perm (sortSpansDesc l) l := by
  induction l with
  | nil => exact List.Perm.refl _
  | cons sp rest ih =>
    exact (insertSpanDesc_perm sp (sortSpansDesc rest)).trans (ih.cons sp)

theorem insertSpanDesc_sorted (sp : PiiSpan) (l : List PiiSpan)
    (h : List.Pairwise (fun a b : PiiSpan => b.start ≤ a.start) l) :
    List.Pairwise (fun a b : PiiSpan => b.start ≤ a.start) (insertSpanDesc sp l) := by
  induction l with
  | nil => simp [insertSpanDesc]
  | cons x xs ih =>
    obtain ⟨hx, hxs⟩ := List.pairwise_cons.mp h
    simp only [insertSpanDesc]
    split
    · rename_i hle
      refine List.Pairwise.cons ?_ (ih hxs)
      intro y hy
      rcases List.mem_cons.mp ((insertSpanDesc_perm sp xs).mem_iff.mp hy) with rfl | hy
      · exact hle
      · exact hx y hy
    · rename_i hgt
      refine List.Pairwise.cons ?_ h
      intro y hy
      rcases List.mem_cons.mp hy with rfl | hy
      · omega
      · have := hx y hy
        omega

theorem sortSpansDesc_sorted (l : List PiiSpan) :
    List.Pairwise (fun a b : PiiSpan => b.start ≤ a.start) (sortSpansDesc l) := by
  induction l with
  | nil => exact List.Pairwise.nil
  | cons sp rest ih => exact insertSpanDesc_sorted sp (sortSpansDesc rest) ih

theorem toDescOk (l : List PiiSpan) :
    ∀ B, List.Pairwise (fun a b : PiiSpan => b.start ≤ a.start) l →
      List.Pairwise SpanDisj l →
      (∀ sp ∈ l, sp.start < sp.stop) → (∀ sp ∈ l, sp.stop ≤ B) →
      DescOk B l := by
  induction l with
  | nil => intro B _ _ _ _; trivial
  | cons sp rest ih =>
    intro B hsort hdisj hval hstop
    obtain ⟨hs1, hs2⟩ := List.pairwise_cons.mp hsort
    obtain ⟨hd1, hd2⟩ := List.pairwise_cons.mp hdisj
    have hv := hval sp (List.mem_cons_self sp rest)
    refine ⟨hv, hstop sp (List.mem_cons_self sp rest), ?_⟩
    apply ih sp.start hs2 hd2
    · intro r hr
      exact hval r (List.mem_cons_of_mem sp hr)
    · intro r hr
      have hle := hs1 r hr
      rcases hd1 r hr with h | h
      · omega
      · exact h

theorem extract_concat (t : List Char) (s e : Nat) (hse : s ≤ e) :
    t.take s ++ ((t.take e).drop s ++ t.drop e) = t := by
  rw [List.drop_take]
  have h1 : t.drop e = List.drop (e - s) (t.drop s) := by
    rw [List.drop_drop]
    congr 1
    omega
  rw [h1, List.take_append_drop, List.take_append_drop]

theorem spliceTag_length_ge (t : List Char) (sp : PiiSpan)
    (h : sp.start ≤ t.length) : sp.start ≤ (spliceTag t sp).length := by
  unfold spliceTag
  simp only [List.length_append, List.length_take]
  omega

theorem applyAll_append (L : List PiiSpan) :
    ∀ (t u : List Char), DescOk t.length L →
      applyAll (t ++ u) L = ((applyAll t L).1 ++ u, (applyAll t L).2) := by
  induction L with
  | nil => intro t u _; simp [applyAll]
  | cons sp rest ih =>
    intro t u h
    obtain ⟨h1, h2, h3⟩ := h
    have hsl : sp.start ≤ t.length := by omega
    have htake : (t ++ u).take sp.start = t.take sp.start := by
      rw [List.take_append_eq_append_take]
      have he : sp.start - t.length = 0 := by omega
      rw [he]
      simp
    have hdrop : (t ++ u).drop sp.stop = t.drop sp.stop ++ u := by
      rw [List.drop_append_eq_append_drop]
      have he : sp.stop - t.length = 0 := by omega
      rw [he]
      simp
    have hcap : ((t ++ u).take sp.stop).drop sp.start =
        (t.take sp.stop).drop sp.start := by
      rw [List.take_append_eq_append_take]
      have he : sp.stop - t.length = 0 := by omega
      rw [he]
      simp
    have hsplice : spliceTag (t ++ u) sp = spliceTag t sp ++ u := by
      simp [spliceTag, htake, hdrop]
    have hlen : DescOk (spliceTag t sp).length rest :=
      descOk_mono sp.start _ rest (spliceTag_length_ge t sp hsl) h3
    simp only [applyAll, hsplice, hcap]
    rw [ih (spliceTag t sp) u hlen]

theorem spliceBack_pass (rs : List RedactionRecord) (v u : List Char) (p : Nat)
    (h : ∀ r ∈ rs, p + v.length ≤ r.start) :
    spliceBack (v ++ u) p rs = v ++ spliceBack u (p + v.length) rs := by
  cases rs with
  | nil => simp [spliceBack]
  | cons r rs =>
    have hr := h r (List.mem_cons_self r rs)
    have htake : (v ++ u).take (r.start - p) =
        v ++ u.take (r.start - (p + v.length)) := by
      rw [List.take_append_eq_append_take]
      have h1 : List.take (r.start - p) v = v := List.take_of_length_le (by omega)
      rw [h1]
      congr 2
      omega
    have hdrop : (v ++ u).drop ((r.start - p) + tagLen r.label) =
        u.drop ((r.start - (p + v.length)) + tagLen r.label) := by
      rw [List.drop_append_eq_append_drop]
      have h1 : List.drop ((r.start - p) + tagLen r.label) v = [] :=
        List.drop_eq_nil_of_le (by omega)
      have h2 : (r.start - p) + tagLen r.label - v.length =
          (r.start - (p + v.length)) + tagLen r.label := by omega
      rw [h1, h2]
      simp
    simp only [spliceBack, htake, hdrop, List.append_assoc]

theorem spliceBack_applyAll (L : List PiiSpan) :
    ∀ (t u : List Char) (rs : List RedactionRecord),
      DescOk t.length L → (∀ r ∈ rs, t.length ≤ r.start) →
      spliceBack ((applyAll t L).1 ++ u) 0 ((applyAll t L).2.reverse ++ rs) =
        t ++ spliceBack u t.length rs := by
  induction L with
  | nil =>
    intro t u rs _ hrs
    simp only [applyAll, List.reverse_nil, List.nil_append]
    have hp := spliceBack_pass rs t u 0 (by intro r hr; have := hrs r hr; omega)
    simpa using hp
  | cons sp rest ih =>
    intro t u rs h hrs
    obtain ⟨h1, h2, h3⟩ := h
    have hsl : sp.start ≤ t.length := by omega
    have hts : (t.take sp.start).length = sp.start := by
      rw [List.length_take]
      omega
    have hsplit := applyAll_append rest (t.take sp.start)
      (tagOf sp.label ++ t.drop sp.stop) (by rw [hts]; exact h3)
    have hst : spliceTag t sp =
        t.take sp.start ++ (tagOf sp.label ++ t.drop sp.stop) := by
      simp [spliceTag]
    have happ : applyAll t (sp :: rest) =
        ((applyAll (t.take sp.start) rest).1 ++ (tagOf sp.label ++ t.drop sp.stop),
         recOf t sp :: (applyAll (t.take sp.start) rest).2) := by
      show (((applyAll (spliceTag t sp) rest).1,
        recOf t sp :: (applyAll (spliceTag t sp) rest).2) :
          List Char × List RedactionRecord) = _
      rw [hst, hsplit]
    rw [happ]
    simp only [List.reverse_cons, List.append_assoc, List.singleton_append]
    have hih := ih (t.take sp.start) (tagOf sp.label ++ (t.drop sp.stop ++ u))
      (recOf t sp :: rs)
      (by rw [hts]; exact h3)
      (by
        intro r hr
        rcases List.mem_cons.mp hr with rfl | hr
        · rw [hts]
          exact Nat.le_refl _
        · have := hrs r hr
          rw [hts]
          omega)
    rw [hih]
    have hstep : spliceBack (tagOf sp.label ++ (t.drop sp.stop ++ u))
        (t.take sp.start).length (recOf t sp :: rs) =
        (t.take sp.stop).drop sp.start ++
          spliceBack (t.drop sp.stop ++ u) sp.stop rs := by
      show List.take ((recOf t sp).start - (t.take sp.start).length) _ ++ _ ++ _ = _
      rw [hts]
      have hz : (recOf t sp).start - sp.start = 0 := by
        show sp.start - sp.start = 0
        omega
      rw [hz]
      simp only [List.take_zero, List.nil_append, Nat.zero_add]
      rw [show tagLen (recOf t sp).label = (tagOf sp.label).length from rfl]
      rw [List.drop_left]
      rfl
    rw [hstep]
    have hpass := spliceBack_pass rs (t.drop sp.stop) u sp.stop
      (by
        intro r hr
        have := hrs r hr
        rw [List.length_drop]
        omega)
    rw [hpass]
    have hflen : sp.stop + (t.drop sp.stop).length = t.length := by
      rw [List.length_drop]
      omega
    rw [hflen]
    rw [← List.append_assoc ((t.take sp.stop).drop sp.start) (t.drop sp.stop)
      (spliceBack u t.length rs)]
    rw [← List.append_assoc (t.take sp.start)
      ((t.take sp.stop).drop sp.start ++ t.drop sp.stop) (spliceBack u t.length rs)]
    rw [show t.take sp.start ++ ((t.take sp.stop).drop sp.start ++ t.drop sp.stop) = t
      from extract_concat t sp.start sp.stop (by omega)]

theorem applyAll_records (L : List PiiSpan) :
    ∀ t : List Char, DescOk t.length L →
      (applyAll t L).2 = L.map (recOf t) := by
  induction L with
  | nil => intro t _; simp [applyAll]
  | cons sp rest ih =>
    intro t h
    obtain ⟨h1, h2, h3⟩ := h
    have hsl : sp.start ≤ t.length := by omega
    have hlen : DescOk (spliceTag t sp).length rest :=
      descOk_mono sp.start _ rest (spliceTag_length_ge t sp hsl) h3
    have hmap : rest.map (recOf (spliceTag t sp)) = rest.map (recOf t) := by
      apply List.map_congr_left
      intro a ha
      have hstop := descOk_allStop rest sp.start h3 a ha
      have hst : spliceTag t sp =
          t.take sp.start ++ (tagOf sp.label ++ t.drop sp.stop) := by
        simp [spliceTag]
      have htk : (spliceTag t sp).take a.stop = t.take a.stop := by
        rw [hst, List.take_append_eq_append_take]
        have hx : (t.take sp.start).take a.stop = t.take a.stop := by
          rw [List.take_take]
          congr 1
          omega
        have hy : a.stop - (t.take sp.start).length = 0 := by
          rw [List.length_take]
          omega
        rw [hx, hy]
        simp
      show (⟨a.label, ((spliceTag t sp).take a.stop).drop a.start, a.start, a.stop⟩ :
        RedactionRecord) = ⟨a.label, (t.take a.stop).drop a.start, a.start, a.stop⟩
      rw [htk]
    simp only [applyAll, List.map_cons]
    rw [ih (spliceTag t sp) hlen, hmap]
    rfl

theorem insertRecAsc_atEnd (r : RedactionRecord) (m : List RedactionRecord)
    (h : ∀ x ∈ m, x.start < r.start) : insertRecAsc r m = m ++ [r] := by
  induction m with
  | nil => simp [insertRecAsc]
  | cons x xs ih =>
    have hx := h x (List.mem_cons_self x xs)
    simp only [insertRecAsc]
    rw [if_neg (by omega)]
    rw [ih (fun y hy => h y (List.mem_cons_of_mem x hy))]
    simp

theorem sortRecordsAsc_ofStrictDesc (l : List RedactionRecord)
    (h : List.Pairwise (fun a b : RedactionRecord => b.start < a.start) l) :
    sortRecordsAsc l = l.reverse := by
  induction l with
  | nil => simp [sortRecordsAsc]
  | cons r rest ih =>
    obtain ⟨hr, hrest⟩ := List.pairwise_cons.mp h
    simp only [sortRecordsAsc]
    rw [ih hrest]
    rw [insertRecAsc_atEnd r rest.reverse
      (fun x hx => hr x (List.mem_reverse.mp hx))]
    simp

/-- C2: for every text and every set of non-overlapping valid spans,
the spec's SpanRedactor returns, alongside the redacted text, the
RedactionRecords ordered ascending by original start offset, each
capturing the exact original substring of its span, and splicing those
original substrings back into the positions of the corresponding
redaction tags reconstructs the original input exactly (round trip). -/
theorem thm_C2 (text : List Char) (spans : List PiiSpan)
    (hval : ∀ sp ∈ spans, sp.start < sp.stop ∧ sp.stop ≤ text.length)
    (hdisj : List.Pairwise SpanDisj spans) :
    List.Pairwise (fun a b : RedactionRecord => a.start < b.start)
      (redactSpans text spans).2 ∧
    (∀ r ∈ (redactSpans text spans).2,
      r.original_text = (text.take r.stop).drop r.start) ∧
    spliceBack (redactSpans text spans).1 0 (redactSpans text spans).2 = text := by
  have hperm := sortSpansDesc_perm spans
  have hsorted := sortSpansDesc_sorted spans
  have hdisjD : List.Pairwise SpanDisj (sortSpansDesc spans) :=
    (hperm.pairwise_iff (fun hab => Or.symm hab)).mpr hdisj
  have hdesc : DescOk text.length (sortSpansDesc spans) := by
    apply toDescOk _ _ hsorted hdisjD
    · intro sp hsp
      exact (hval sp (hperm.mem_iff.mp hsp)).1
    · intro sp hsp
      exact (hval sp (hperm.mem_iff.mp hsp)).2
  have hrec : (applyAll text (sortSpansDesc spans)).2 =
      (sortSpansDesc spans).map (recOf text) :=
    applyAll_records (sortSpansDesc spans) text hdesc
  have hstrictSpans := descOk_strictDesc (sortSpansDesc spans) text.length hdesc
  have hstrict : List.Pairwise (fun a b : RedactionRecord => b.start < a.start)
      (applyAll text (sortSpansDesc spans)).2 := by
    rw [hrec]
    exact List.pairwise_map.mpr hstrictSpans
  have hsortrec : sortRecordsAsc (applyAll text (sortSpansDesc spans)).2 =
      ((applyAll text (sortSpansDesc spans)).2).reverse :=
    sortRecordsAsc_ofStrictDesc _ hstrict
  have hfst : (redactSpans text spans).1 = (applyAll text (sortSpansDesc spans)).1 := rfl
  have hsnd : (redactSpans text spans).2 =
      sortRecordsAsc (applyAll text (sortSpansDesc spans)).2 := rfl
  refine ⟨?_, ?_, ?_⟩
  · rw [hsnd, hsortrec]
    exact List.pairwise_reverse.mpr hstrict
  · intro r hr
    rw [hsnd, hsortrec] at hr
    have hr2 : r ∈ (applyAll text (sortSpansDesc spans)).2 := List.mem_reverse.mp hr
    rw [hrec] at hr2
    obtain ⟨sp, _, rfl⟩ := List.mem_map.mp hr2
    rfl
  · rw [hfst, hsnd, hsortrec]
    have hmain := spliceBack_applyAll (sortSpansDesc spans) text [] [] hdesc
      (by intro r hr; cases hr)
    simpa [spliceBack] using hmain

/-- Witness for C2 at a concrete text and span set. -/
theorem wit_C2 :
    ((∀ sp ∈ [(⟨5, 8, ( "Y".data), SpanSource.PATTERN⟩ : PiiSpan),
              ⟨1, 3, ( "X".data), SpanSource.ENTITY⟩],
        sp.start < sp.stop ∧ sp.stop ≤ ( "abcdefgh".data).length) ∧
      List.Pairwise SpanDisj
        [(⟨5, 8, ( "Y".data), SpanSource.PATTERN⟩ : PiiSpan),
         ⟨1, 3, ( "X".data), SpanSource.ENTITY⟩]) ∧
    (List.Pairwise (fun a b : RedactionRecord => a.start < b.start)
      (redactSpans ( "abcdefgh".data)
        [⟨5, 8, ( "Y".data), SpanSource.PATTERN⟩,
         ⟨1, 3, ( "X".data), SpanSource.ENTITY⟩]).2 ∧
    (∀ r ∈ (redactSpans ( "abcdefgh".data)
        [⟨5, 8, ( "Y".data), SpanSource.PATTERN⟩,
         ⟨1, 3, ( "X".data), SpanSource.ENTITY⟩]).2,
      r.original_text = (( "abcdefgh".data).take r.stop).drop r.start) ∧
    spliceBack (redactSpans ( "abcdefgh".data)
        [⟨5, 8, ( "Y".data), SpanSource.PATTERN⟩,
         ⟨1, 3, ( "X".data), SpanSource.ENTITY⟩]).1 0
      (redactSpans ( "abcdefgh".data)
        [⟨5, 8, ( "Y".data), SpanSource.PATTERN⟩,
         ⟨1, 3, ( "X".data), SpanSource.ENTITY⟩]).2 = ( "abcdefgh".data)) :=
  ⟨⟨by decide, by decide⟩,
   thm_C2 ( "abcdefgh".data)
     [⟨5, 8, ( "Y".data), SpanSource.PATTERN⟩,
      ⟨1, 3, ( "X".data), SpanSource.ENTITY⟩]
     (by decide) (by decide)⟩

theorem findSep_spec (sep : List Char) :
    ∀ (s b a : List Char), findSep sep s = some (b, a) → s = b ++ sep ++ a := by
  intro s
  induction s with
  | nil => intro b a h; simp [findSep] at h
  | cons c rest ih =>
    intro b a h
    simp only [findSep] at h
    split at h
    · rename_i hpre
      obtain ⟨t, ht⟩ := List.isPrefixOf_iff_prefix.mp hpre
      injection h with h1
      injection h1 with hb ha
      subst hb
      rw [List.nil_append]
      rw [← ht] at ha ⊢
      rw [List.drop_left] at ha
      rw [ha]
    · cases hfind : findSep sep rest with
      | none => rw [hfind] at h; cases h
      | some pair =>
        rw [hfind] at h
        injection h with h1
        injection h1 with hb ha
        subst hb ha
        have := ih pair.1 pair.2 (by rw [hfind])
        rw [List.cons_append, List.cons_append, ← this]

theorem splitOnSepGo_ne_nil (sep : List Char) (fuel : Nat) (s : List Char) :
    splitOnSepGo sep fuel s ≠ [] := by
  cases fuel with
  | zero => simp [splitOnSepGo]
  | succ fuel =>
    simp only [splitOnSepGo]
    cases findSep sep s with
    | none => simp
    | some pair => simp

theorem joinSep_cons (sep b : List Char) (l : List (List Char)) (h : l ≠ []) :
    joinSep sep (b :: l) = b ++ sep ++ joinSep sep l := by
  cases l with
  | nil => exact absurd rfl h
  | cons y rest => simp [joinSep, List.append_assoc]

theorem joinSep_splitOnSepGo (sep : List Char) (hsep : sep ≠ []) :
    ∀ (fuel : Nat) (s : List Char), s.length < fuel →
      joinSep sep (splitOnSepGo sep fuel s) = s := by
  intro fuel
  induction fuel with
  | zero => intro s h; omega
  | succ fuel ih =>
    intro s h
    simp only [splitOnSepGo]
    cases hfind : findSep sep s with
    | none => rfl
    | some pair =>
      have hspec := findSep_spec sep s pair.1 pair.2 (by rw [hfind])
      have hlen : pair.2.length < fuel := by
        have h1 : s.length = pair.1.length + sep.length + pair.2.length := by
          rw [hspec]
          simp [List.length_append]
          omega
        have h2 : 1 ≤ sep.length := by
          cases sep with
          | nil => exact absurd rfl hsep
          | cons c cs => simp
        omega
      rw [joinSep_cons sep pair.1 _ (splitOnSepGo_ne_nil sep fuel pair.2)]
      rw [ih pair.2 hlen]
      rw [hspec]

theorem joinSep_splitOnSep (sep s : List Char) (hsep : sep ≠ []) :
    joinSep sep (splitOnSep sep s) = s :=
  joinSep_splitOnSepGo sep hsep (s.length + 1) s (by omega)

theorem process_audio_file_nilResults (samples : List ℚ) (log10 : ℚ → ℚ)
    (entsOf : List Char → List Ent) (tts : List Char → List Char) :
    process_audio_file ⟨[]⟩ samples log10 entsOf tts =
      Except.error transcribeErrMsg := rfl

theorem process_audio_file_nilAlts (rest : List RecognizeResult)
    (samples : List ℚ) (log10 : ℚ → ℚ) (entsOf : List Char → List Ent)
    (tts : List Char → List Char) :
    process_audio_file ⟨⟨[]⟩ :: rest⟩ samples log10 entsOf tts =
      Except.error transcribeErrMsg := rfl

theorem process_audio_file_cons (alt : SpeechAlternative)
    (alts : List SpeechAlternative) (rest : List RecognizeResult)
    (samples : List ℚ) (log10 : ℚ → ℚ) (entsOf : List Char → List Ent)
    (tts : List Char → List Char) :
    process_audio_file ⟨⟨alt :: alts⟩ :: rest⟩ samples log10 entsOf tts =
      Except.ok
        [(keyTranscript, alt.transcript),
         (keyScore, format2 (combinedScore alt.confidence
           (calculate_snr log10 samples) (calculate_word_perplexity alt.words))),
         (keyLevel, (trustLevel (combinedScore alt.confidence
           (calculate_snr log10 samples)
           (calculate_word_perplexity alt.words))).data),
         (keyRedacted, redact_pii_ner (entsOf (redact_pii_regex alt.transcript))
           (redact_pii_regex alt.transcript)),
         (keySummary, summarize_text alt.transcript),
         (keyAudio, tts (summarize_text alt.transcript))] := rfl

/-- C1 counterexample: for the crafted text the pattern detector
(applied first, lines 123-124) produces
`Call [REDACTED_PHONE] or ask John`; feeding the entity redactor a
PERSON span over `John` (offsets 29-33 of that intermediate text) plus
an incorrect entity span overlapping the phone region (offsets 5-17)
makes the entity splice rewrite the pattern tag: the output is
`Call [REDACTED_ORG]ONE] or ask [REDACTED_PERSON]`, not the
claim-required `Call [REDACTED_PHONE] or ask [REDACTED_PERSON]` — the
pattern span does not win and its characters are redacted twice. -/
theorem cex_C1 :
    redact_pii_ner
        [⟨29, 33, ( "PERSON".data)⟩, ⟨5, 17, ( "ORG".data)⟩]
        (redact_pii_regex ( "Call 555-123-4567 or ask John".data)) =
      ( "Call [REDACTED_ORG]ONE] or ask [REDACTED_PERSON]".data) ∧
    redact_pii_ner
        [⟨29, 33, ( "PERSON".data)⟩, ⟨5, 17, ( "ORG".data)⟩]
        (redact_pii_regex ( "Call 555-123-4567 or ask John".data)) ≠
      ( "Call [REDACTED_PHONE] or ask [REDACTED_PERSON]".data) := by
  constructor
  · decide
  · decide

/-- C1 amended: there is no overlap resolution between the two
detectors.  The deterministic patterns are applied first, to the
original text (so on the crafted text the phone number is regex
redacted before the entity stage sees anything); the entity redactor
then splices its spans into the already redacted text unconditionally.
When no entity span overlaps a pattern tag — entity output PERSON over
`John` only — the output is the expected
`Call [REDACTED_PHONE] or ask [REDACTED_PERSON]`; an entity span
overlapping the pattern tag region instead rewrites the tag
(double redaction), as the counterexample shows. -/
theorem thm_C1_amended :
    redact_pii_regex ( "Call 555-123-4567 or ask John".data) =
      ( "Call [REDACTED_PHONE] or ask John".data) ∧
    redact_pii_ner [⟨29, 33, ( "PERSON".data)⟩]
        (redact_pii_regex ( "Call 555-123-4567 or ask John".data)) =
      ( "Call [REDACTED_PHONE] or ask [REDACTED_PERSON]".data) := by
  constructor
  · decide
  · decide

/-- C4 counterexample: `_summarize_text` has no word-count gate and no
fixed sentinel.  The one-word inputs `a` and `b` (both far under 50
words) yield `a.` and `b.` — two different outputs derived from the
input, so no fixed "too short to summarize" sentinel is ever
returned. -/
theorem cex_C4 :
    summarize_text ( "a".data) = ( "a.".data) ∧
    summarize_text ( "b".data) = ( "b.".data) ∧
    ( "a.".data) ≠ ( "b.".data) := by
  refine ⟨?_, ?_, ?_⟩ <;> decide

/-- C4 amended: `_summarize_text` ignores word count and calls no
external engine; it returns the first three `". "`-separated chunks
rejoined, appending a final period when the result does not already
end with one.  In particular any text with at most three chunks is
returned unchanged except for the possibly appended final period. -/
theorem thm_C4_amended (text : List Char)
    (h : (splitOnSep ( ". ".data) text).length ≤ 3) :
    summarize_text text =
      if List.isSuffixOf ( ".".data) text then text
      else text ++ ( ".".data) := by
  simp only [summarize_text]
  rw [List.take_of_length_le h, joinSep_splitOnSep _ _ (by decide)]

/-- Witness for the amended C4 at a concrete short text. -/
theorem wit_C4 :
    (splitOnSep ( ". ".data) ( "Hi there. Ok".data)).length ≤ 3 ∧
    summarize_text ( "Hi there. Ok".data) =
      if List.isSuffixOf ( ".".data) ( "Hi there. Ok".data)
      then ( "Hi there. Ok".data)
      else ( "Hi there. Ok".data) ++ ( ".".data) :=
  ⟨by decide, thm_C4_amended ( "Hi there. Ok".data) (by decide)⟩

/-- C3 counterexample: the source computes
`0.5*api_confidence + 0.3*snr_norm + 0.2*perplexity_norm`
unconditionally; an absent API confidence arrives as the protobuf
default `0`.  With both remaining signals at their maximum
(`snr_norm = 1`, `perplexity_norm = 1`) the combined score is `0.5`,
not the `1` a redistribution of the missing weight would give: the
weights applied to the remaining signals sum to `0.5`, not `1`. -/
theorem cex_C3 :
    combinedScore 0 (some 30) (some 1) = 1 / 2 ∧
    combinedScore 0 (some 30) (some 1) ≠ 1 := by
  have h1 : snrNormalized (some 30) = 1 := by
    norm_num [snrNormalized, min_def, max_def]
  have h2 : perplexityNormalized (some 1) = 1 := by
    norm_num [perplexityNormalized, max_def]
  unfold combinedScore
  rw [h1, h2]
  norm_num

/-- C3 amended: there is no redistribution branch.  The weights are
fixed at `0.5/0.3/0.2`; a missing API confidence is treated as `0`
(the protobuf default), so the score degenerates to
`0.3*snr_norm + 0.2*perplexity_norm` and the weights applied to the
remaining signals sum to `0.5`. -/
theorem thm_C3_amended (snr perplexity : Option ℚ) :
    combinedScore 0 snr perplexity =
      0.3 * snrNormalized snr + 0.2 * perplexityNormalized perplexity := by
  unfold combinedScore
  ring

/-- C5 counterexample: the guard of line 98 only tests
`response.results` and `response.results[0].alternatives` for
emptiness.  A response holding one alternative whose transcript is the
empty string passes the guard: the run returns a success result (so
scoring, redaction, summarization and synthesis all execute), instead
of raising.  The stored transcript is the empty string. -/
theorem cex_C5 :
    isOkE (process_audio_file ⟨[⟨[⟨[], 0, []⟩]⟩]⟩ [] (fun _ => 0)
        (fun _ => []) (fun _ => ( "out.mp3".data))) = true ∧
    List.lookup keyTranscript
        ((process_audio_file ⟨[⟨[⟨[], 0, []⟩]⟩]⟩ [] (fun _ => 0)
          (fun _ => []) (fun _ => ( "out.mp3".data))).toOption.getD []) =
      some [] := by
  constructor
  · rfl
  · rfl

/-- C5 amended: `process_audio_file` raises (a generic `ValueError`,
not a dedicated `TranscriptionFailure` class) exactly when the
response has no results or its first result has no alternatives; an
alternative whose transcript text is empty passes the guard and the
run proceeds through scoring and every later stage. -/
theorem thm_C5_amended (resp : RecognizeResponse) (samples : List ℚ)
    (log10 : ℚ → ℚ) (entsOf : List Char → List Ent)
    (tts : List Char → List Char) :
    isOkE (process_audio_file resp samples log10 entsOf tts) = true ↔
      ∃ res rest, resp.results = res :: rest ∧ res.alternatives ≠ [] := by
  obtain ⟨results⟩ := resp
  cases results with
  | nil =>
    rw [process_audio_file_nilResults]
    simp [isOkE]
  | cons res rest =>
    obtain ⟨alts⟩ := res
    cases alts with
    | nil =>
      rw [process_audio_file_nilAlts]
      constructor
      · intro h
        simp [isOkE] at h
      · rintro ⟨res2, rest2, heq, hne⟩
        injection heq with h1 h2
        subst h1
        exact absurd rfl hne
    | cons alt alts =>
      rw [process_audio_file_cons]
      constructor
      · intro _
        exact ⟨⟨alt :: alts⟩, rest, rfl, by simp⟩
      · intro _
        rfl

/-- C6: the scorer never raises on degenerate numeric inputs.  With
zero-variance noise power `_calculate_snr` returns `+infinity` (the
`none` branch) and the normalisation clamps it to `snr_norm = 1`; with
zero average per-word confidence the perplexity is `+infinity` and is
clamped to `perplexity_norm = 0`; the combined score is then the
finite rational `0.5 * api_confidence + 0.3`. -/
theorem thm_C6 (log10 : ℚ → ℚ) (y : List ℚ) (ws : List SpeechWord)
    (api_confidence : ℚ) (hvar : npVar y = 0)
    (hmean : npMean (ws.map (fun w => w.confidence)) = 0) :
    calculate_snr log10 y = none ∧
    calculate_word_perplexity ws = none ∧
    snrNormalized (calculate_snr log10 y) = 1 ∧
    perplexityNormalized (calculate_word_perplexity ws) = 0 ∧
    combinedScore api_confidence (calculate_snr log10 y)
        (calculate_word_perplexity ws) = 0.5 * api_confidence + 0.3 := by
  have h1 : calculate_snr log10 y = none := by
    simp [calculate_snr, hvar]
  have h2 : calculate_word_perplexity ws = none := by
    simp [calculate_word_perplexity, hmean]
  refine ⟨h1, h2, ?_, ?_, ?_⟩
  · rw [h1]
    rfl
  · rw [h2]
    rfl
  · rw [h1, h2]
    unfold combinedScore
    norm_num [snrNormalized, perplexityNormalized]

/-- Witness for C6 on constant (zero-variance) audio and one
zero-confidence word. -/
theorem wit_C6 :
    npVar [1, 1] = 0 ∧
    npMean (([⟨0⟩] : List SpeechWord).map (fun w => w.confidence)) = 0 ∧
    (calculate_snr (fun _ => 0) [1, 1] = none ∧
     calculate_word_perplexity [⟨0⟩] = none ∧
     snrNormalized (calculate_snr (fun _ => 0) [1, 1]) = 1 ∧
     perplexityNormalized (calculate_word_perplexity [⟨0⟩]) = 0 ∧
     combinedScore (1 / 2) (calculate_snr (fun _ => 0) [1, 1])
       (calculate_word_perplexity [⟨0⟩]) = 0.5 * (1 / 2) + 0.3) :=
  ⟨by norm_num [npVar, npMean],
   by norm_num [npMean],
   thm_C6 (fun _ => 0) [1, 1] [⟨0⟩] (1 / 2)
     (by norm_num [npVar, npMean]) (by norm_num [npMean])⟩

/-- C7 counterexample: with `api_confidence = 0.95`, `snr_db = 30`
(so `snr_norm = 1`) and average word confidence `0.9` (so
`perplexity = 10/9` and `perplexity_norm = 8/9`), the source computes
`0.5*0.95 + 0.3*1 + 0.2*(8/9) = 343/360 ≈ 0.9528`, not the `0.91` the
claim states (the level is still `HIGH`). -/
theorem cex_C7 :
    combinedScore (19 / 20) (some 30)
        (calculate_word_perplexity [⟨9 / 10⟩]) = 343 / 360 ∧
    combinedScore (19 / 20) (some 30)
        (calculate_word_perplexity [⟨9 / 10⟩]) ≠ 91 / 100 := by
  have hperp : calculate_word_perplexity [⟨9 / 10⟩] = some (10 / 9) := by
    norm_num [calculate_word_perplexity, npMean]
  have hsnr : snrNormalized (some 30) = 1 := by
    norm_num [snrNormalized, min_def, max_def]
  have hpn : perplexityNormalized (some (10 / 9)) = 8 / 9 := by
    norm_num [perplexityNormalized, max_def]
  rw [hperp]
  unfold combinedScore
  rw [hsnr, hpn]
  norm_num

/-- C7 amended: the level thresholds are exactly as claimed (`HIGH`
iff the combined score exceeds `0.85`, `MEDIUM` iff it lies in
`(0.70, 0.85]`, `LOW` otherwise), and a score of `0.60` maps to `LOW`;
but the crafted inputs (`api_confidence = 0.95`, `snr_db = 30`,
`avg_confidence = 0.9`) produce the combined score `343/360 ≈ 0.9528`
(displayed `0.95`), not `0.91` — the level is `HIGH` either way. -/
theorem thm_C7_amended :
    (∀ c : ℚ,
      (trustLevel c = "HIGH" ↔ 0.85 < c) ∧
      (trustLevel c = "MEDIUM" ↔ (0.70 < c ∧ c ≤ 0.85)) ∧
      (trustLevel c = "LOW" ↔ c ≤ 0.70)) ∧
    trustLevel (combinedScore (19 / 20) (some 30)
      (calculate_word_perplexity [⟨9 / 10⟩])) = "HIGH" ∧
    trustLevel (3 / 5) = "LOW" := by
  have hlevel : ∀ c : ℚ,
      (trustLevel c = "HIGH" ↔ 0.85 < c) ∧
      (trustLevel c = "MEDIUM" ↔ (0.70 < c ∧ c ≤ 0.85)) ∧
      (trustLevel c = "LOW" ↔ c ≤ 0.70) := by
    intro c
    unfold trustLevel
    split_ifs with h1 h2
    · refine ⟨⟨fun _ => h1, fun _ => rfl⟩,
        ⟨fun h => absurd h (by decide), fun h => absurd h1 (by push_neg; linarith [h.2])⟩,
        ⟨fun h => absurd h (by decide), fun h => absurd h1 (by push_neg; linarith)⟩⟩
    · refine ⟨⟨fun h => absurd h (by decide), fun h => absurd h1 (by push_neg; linarith)⟩,
        ⟨fun _ => ⟨h2, by push_neg at h1; exact h1⟩, fun _ => rfl⟩,
        ⟨fun h => absurd h (by decide), fun h => absurd h2 (by push_neg; linarith)⟩⟩
    · refine ⟨⟨fun h => absurd h (by decide), fun h => absurd h (by push_neg at h1; linarith)⟩,
        ⟨fun h => absurd h (by decide), fun h => absurd h.1 (by push_neg at h2; linarith)⟩,
        ⟨fun _ => by push_neg at h2; linarith, fun _ => rfl⟩⟩
  refine ⟨hlevel, ?_, ?_⟩
  · have hperp : calculate_word_perplexity [⟨9 / 10⟩] = some (10 / 9) := by
      norm_num [calculate_word_perplexity, npMean]
    have hsnr : snrNormalized (some 30) = 1 := by
      norm_num [snrNormalized, min_def, max_def]
    have hpn : perplexityNormalized (some (10 / 9)) = 8 / 9 := by
      norm_num [perplexityNormalized, max_def]
    have hc : combinedScore (19 / 20) (some 30)
        (calculate_word_perplexity [⟨9 / 10⟩]) = 343 / 360 := by
      rw [hperp]
      unfold combinedScore
      rw [hsnr, hpn]
      norm_num
    rw [hc]
    rw [(hlevel (343 / 360)).1]
    norm_num
  · rw [(hlevel (3 / 5)).2.2]
    norm_num

theorem roundHalfEven_90a : roundHalfEven (9 / 10 * 100) = 90 := by
  have hf : (⌊(9 / 10 * 100 : ℚ)⌋ : ℤ) = 90 := by norm_num
  simp only [roundHalfEven, hf]
  norm_num

theorem roundHalfEven_90b : roundHalfEven (901 / 1000 * 100) = 90 := by
  have hf : (⌊(901 / 1000 * 100 : ℚ)⌋ : ℤ) = 90 := by norm_num
  simp only [roundHalfEven, hf]
  norm_num

theorem format2_90a : format2 (9 / 10) = ( "0.90".data) := by
  simp only [format2, roundHalfEven_90a]
  decide

theorem format2_90b : format2 (901 / 1000) = ( "0.90".data) := by
  simp only [format2, roundHalfEven_90b]
  decide

/-- C8 counterexample: the result dictionary keeps only the 2-decimal
string `f"{combined_score:.2f}"`; the unrounded value is not retained.
Two runs whose combined scores differ (`0.9` versus `0.901`, from API
confidences `0.8` and `0.802`) produce identical result dictionaries
(both display `0.90` and level `HIGH`), so no downstream numeric
comparison can recover the unrounded score from the result. -/
theorem cex_C8 :
    process_audio_file ⟨[⟨[⟨( "Hello".data), 4 / 5, [⟨1⟩]⟩]⟩]⟩ []
        (fun _ => 0) (fun _ => []) (fun _ => ( "out.mp3".data)) =
      process_audio_file ⟨[⟨[⟨( "Hello".data), 401 / 500, [⟨1⟩]⟩]⟩]⟩ []
        (fun _ => 0) (fun _ => []) (fun _ => ( "out.mp3".data)) ∧
    combinedScore (4 / 5) (calculate_snr (fun _ => 0) [])
        (calculate_word_perplexity [⟨1⟩]) ≠
      combinedScore (401 / 500) (calculate_snr (fun _ => 0) [])
        (calculate_word_perplexity [⟨1⟩]) := by
  have hsnr : calculate_snr (fun _ => 0) [] = none := by
    norm_num [calculate_snr, npVar, npMean]
  have hperp : calculate_word_perplexity [⟨1⟩] = some 1 := by
    norm_num [calculate_word_perplexity, npMean]
  have hc1 : combinedScore (4 / 5) none (some 1) = 9 / 10 := by
    unfold combinedScore
    norm_num [snrNormalized, perplexityNormalized, max_def]
  have hc2 : combinedScore (401 / 500) none (some 1) = 901 / 1000 := by
    unfold combinedScore
    norm_num [snrNormalized, perplexityNormalized, max_def]
  have hl1 : trustLevel (9 / 10) = "HIGH" := by
    unfold trustLevel
    rw [if_pos (by norm_num)]
  have hl2 : trustLevel (901 / 1000) = "HIGH" := by
    unfold trustLevel
    rw [if_pos (by norm_num)]
  constructor
  · rw [process_audio_file_cons, process_audio_file_cons]
    simp only [hsnr, hperp, hc1, hc2, hl1, hl2, format2_90a, format2_90b]
  · rw [hsnr, hperp, hc1, hc2]
    norm_num

/-- C8 amended: the result stores the trust score only as the rounded
2-decimal display string (`confidence_score = f"{combined:.2f}"`),
while the level is derived from the unrounded combined score before
formatting; the unrounded value itself is not retained in the result
(see the counterexample: distinct unrounded scores, identical
results). -/
theorem thm_C8_amended (resp : RecognizeResponse) (samples : List ℚ)
    (log10 : ℚ → ℚ) (entsOf : List Char → List Ent)
    (tts : List Char → List Char) (r : List (List Char × List Char))
    (h : process_audio_file resp samples log10 entsOf tts = Except.ok r) :
    ∃ alt rest0 rest1,
      resp.results = (⟨alt :: rest0⟩ : RecognizeResult) :: rest1 ∧
      List.lookup keyScore r =
        some (format2 (combinedScore alt.confidence
          (calculate_snr log10 samples)
          (calculate_word_perplexity alt.words))) ∧
      List.lookup keyLevel r =
        some ((trustLevel (combinedScore alt.confidence
          (calculate_snr log10 samples)
          (calculate_word_perplexity alt.words))).data) := by
  obtain ⟨results⟩ := resp
  cases results with
  | nil => rw [process_audio_file_nilResults] at h; cases h
  | cons res rest =>
    obtain ⟨alts⟩ := res
    cases alts with
    | nil => rw [process_audio_file_nilAlts] at h; cases h
    | cons alt alts =>
      rw [process_audio_file_cons] at h
      injection h with h1
      subst h1
      refine ⟨alt, alts, rest, rfl, ?_, ?_⟩
      · simp [List.lookup,
          (by decide : (keyScore == keyTranscript) = false),
          (by decide : (keyScore == keyScore) = true)]
      · simp [List.lookup,
          (by decide : (keyLevel == keyTranscript) = false),
          (by decide : (keyLevel == keyScore) = false),
          (by decide : (keyLevel == keyLevel) = true)]

/-- Witness for the amended C8 at a concrete run. -/
theorem wit_C8 :
    ∃ r, process_audio_file ⟨[⟨[⟨( "Hello".data), 4 / 5, [⟨1⟩]⟩]⟩]⟩ []
        (fun _ => 0) (fun _ => []) (fun _ => ( "out.mp3".data)) =
        Except.ok r ∧
      ∃ alt rest0 rest1,
        (⟨[⟨[⟨( "Hello".data), 4 / 5, [⟨1⟩]⟩]⟩]⟩ :
            RecognizeResponse).results =
          (⟨alt :: rest0⟩ : RecognizeResult) :: rest1 ∧
        List.lookup keyScore r =
          some (format2 (combinedScore alt.confidence
            (calculate_snr (fun _ => 0) [])
            (calculate_word_perplexity alt.words))) ∧
        List.lookup keyLevel r =
          some ((trustLevel (combinedScore alt.confidence
            (calculate_snr (fun _ => 0) [])
            (calculate_word_perplexity alt.words))).data) := by
  refine ⟨_, process_audio_file_cons ⟨( "Hello".data), 4 / 5, [⟨1⟩]⟩ [] [] []
    (fun _ => 0) (fun _ => []) (fun _ => ( "out.mp3".data)), ?_⟩
  exact thm_C8_amended _ [] (fun _ => 0) (fun _ => []) (fun _ => ( "out.mp3".data)) _
    (process_audio_file_cons ⟨( "Hello".data), 4 / 5, [⟨1⟩]⟩ [] [] []
      (fun _ => 0) (fun _ => []) (fun _ => ( "out.mp3".data)))

/-- C9: on every successful run the summary is computed from the
original, un-redacted transcript (`summary =
_summarize_text(results['transcript'])`, line 128) and the synthesized
summary audio is produced from that same summary — so anything redacted
out of the transcript can still appear verbatim in the summary text,
in what the audit writer would print for its summary section, and in
the synthesized audio. -/
theorem thm_C9 (resp : RecognizeResponse) (samples : List ℚ)
    (log10 : ℚ → ℚ) (entsOf : List Char → List Ent)
    (tts : List Char → List Char) (r : List (List Char × List Char))
    (h : process_audio_file resp samples log10 entsOf tts = Except.ok r) :
    ∃ t, List.lookup keyTranscript r = some t ∧
      List.lookup keySummary r = some (summarize_text t) ∧
      List.lookup keyAudio r = some (tts (summarize_text t)) := by
  obtain ⟨results⟩ := resp
  cases results with
  | nil => rw [process_audio_file_nilResults] at h; cases h
  | cons res rest =>
    obtain ⟨alts⟩ := res
    cases alts with
    | nil => rw [process_audio_file_nilAlts] at h; cases h
    | cons alt alts =>
      rw [process_audio_file_cons] at h
      injection h with h1
      subst h1
      refine ⟨alt.transcript, ?_, ?_, ?_⟩
      · simp [List.lookup,
          (by decide : (keyTranscript == keyTranscript) = true)]
      · simp [List.lookup,
          (by decide : (keySummary == keyTranscript) = false),
          (by decide : (keySummary == keyScore) = false),
          (by decide : (keySummary == keyLevel) = false),
          (by decide : (keySummary == keyRedacted) = false),
          (by decide : (keySummary == keySummary) = true)]
      · simp [List.lookup,
          (by decide : (keyAudio == keyTranscript) = false),
          (by decide : (keyAudio == keyScore) = false),
          (by decide : (keyAudio == keyLevel) = false),
          (by decide : (keyAudio == keyRedacted) = false),
          (by decide : (keyAudio == keySummary) = false),
          (by decide : (keyAudio == keyAudio) = true)]

/-- Witness for C9 at a concrete run whose transcript holds a name
that redaction would remove. -/
theorem wit_C9 :
    ∃ t, List.lookup keyTranscript
        ((process_audio_file
          ⟨[⟨[⟨( "Ask John".data), 1, [⟨1⟩]⟩]⟩]⟩ [] (fun _ => 0)
          (fun _ => [⟨4, 8, ( "PERSON".data)⟩])
          (fun s => s)).toOption.getD []) = some t ∧
      List.lookup keySummary
        ((process_audio_file
          ⟨[⟨[⟨( "Ask John".data), 1, [⟨1⟩]⟩]⟩]⟩ [] (fun _ => 0)
          (fun _ => [⟨4, 8, ( "PERSON".data)⟩])
          (fun s => s)).toOption.getD []) = some (summarize_text t) ∧
      List.lookup keyAudio
        ((process_audio_file
          ⟨[⟨[⟨( "Ask John".data), 1, [⟨1⟩]⟩]⟩]⟩ [] (fun _ => 0)
          (fun _ => [⟨4, 8, ( "PERSON".data)⟩])
          (fun s => s)).toOption.getD []) =
        some ((fun s : List Char => s) (summarize_text t)) := by
  exact thm_C9 ⟨[⟨[⟨( "Ask John".data), 1, [⟨1⟩]⟩]⟩]⟩ [] (fun _ => 0)
    (fun _ => [⟨4, 8, ( "PERSON".data)⟩]) (fun s => s) _
    (process_audio_file_cons ⟨( "Ask John".data), 1, [⟨1⟩]⟩ [] [] []
      (fun _ => 0) (fun _ => [⟨4, 8, ( "PERSON".data)⟩]) (fun s => s))

/-- C10: every successful `process_audio_file` result dictionary has
exactly the six keys `transcript`, `confidence_score`,
`confidence_level`, `redacted_transcript`, `summary`,
`summary_audio_filename`, in that order, and no redaction-record list:
the key `pii_results` is absent, so the CLI audit writer's lookup
`results['pii_results']` (line 92 of `run_pipeline.py`) finds nothing
— in Python, a `KeyError` — on every successful run. -/
theorem thm_C10 (resp : RecognizeResponse) (samples : List ℚ)
    (log10 : ℚ → ℚ) (entsOf : List Char → List Ent)
    (tts : List Char → List Char) (r : List (List Char × List Char))
    (h : process_audio_file resp samples log10 entsOf tts = Except.ok r) :
    r.map Prod.fst =
      [keyTranscript, keyScore, keyLevel, keyRedacted, keySummary, keyAudio] ∧
    List.lookup ( "pii_results".data) r = none := by
  obtain ⟨results⟩ := resp
  cases results with
  | nil => rw [process_audio_file_nilResults] at h; cases h
  | cons res rest =>
    obtain ⟨alts⟩ := res
    cases alts with
    | nil => rw [process_audio_file_nilAlts] at h; cases h
    | cons alt alts =>
      rw [process_audio_file_cons] at h
      injection h with h1
      subst h1
      constructor
      · rfl
      · simp [List.lookup,
          (by decide : (( "pii_results".data) == keyTranscript) = false),
          (by decide : (( "pii_results".data) == keyScore) = false),
          (by decide : (( "pii_results".data) == keyLevel) = false),
          (by decide : (( "pii_results".data) == keyRedacted) = false),
          (by decide : (( "pii_results".data) == keySummary) = false),
          (by decide : (( "pii_results".data) == keyAudio) = false)]

/-- Witness for C10 at a concrete run. -/
theorem wit_C10 :
    ((process_audio_file ⟨[⟨[⟨( "Hi".data), 1, [⟨1⟩]⟩]⟩]⟩ [] (fun _ => 0)
        (fun _ => []) (fun _ => ( "out.mp3".data))).toOption.getD []).map
        Prod.fst =
      [keyTranscript, keyScore, keyLevel, keyRedacted, keySummary, keyAudio] ∧
    List.lookup ( "pii_results".data)
        ((process_audio_file ⟨[⟨[⟨( "Hi".data), 1, [⟨1⟩]⟩]⟩]⟩ [] (fun _ => 0)
          (fun _ => []) (fun _ => ( "out.mp3".data))).toOption.getD []) =
      none := by
  exact thm_C10 ⟨[⟨[⟨( "Hi".data), 1, [⟨1⟩]⟩]⟩]⟩ [] (fun _ => 0)
    (fun _ => []) (fun _ => ( "out.mp3".data)) _
    (process_audio_file_cons ⟨( "Hi".data), 1, [⟨1⟩]⟩ [] [] []
      (fun _ => 0) (fun _ => []) (fun _ => ( "out.mp3".data)))
